import Mathlib

/-!
Verification of the file-organizer engine in `personal_janitor.py`.

The development shallowly embeds the engine: filenames are Lean `String`s,
Python `str.endswith` / `str.upper` are modelled on the underlying character
lists, timestamps are integer seconds (`Int`), fallible filesystem calls
(`os.path.getmtime`, `os.path.getctime`, `shutil.move`) are modelled by
`Option` fields on directory entries and an `Except` result on the scan,
mirroring Python exception propagation.  The scan `check_files_in_dir`,
the collision-safe renamer `make_unique` and the mover `move_file` are
translated clause by clause from the source.
-/

namespace Janitor

/-- Python `str.upper` restricted to the ASCII strings handled here
(`Char.toUpper` uppercases exactly the ASCII letters). -/
def pyUpper (s : String) : String := ⟨s.data.map Char.toUpper⟩

/-- Python `str.lower` (ASCII). -/
def pyLower (s : String) : String := ⟨s.data.map Char.toLower⟩

/-- Python `str.endswith`: `t` is a suffix of `s`, anchored at the end. -/
def pyEndswith (s t : String) : Bool := t.data.isSuffixOf s.data

/-- The match test on one extension, from
`name.endswith(extension) or name.endswith(extension.upper())`. -/
def suffMatch (name ext : String) : Bool :=
  pyEndswith name ext || pyEndswith name (pyUpper ext)

/-! ### Decimal rendering of the counter (Python `f"{counter}"`) -/

/-- The ASCII digit character for `n < 10`. -/
def digitChar (n : Nat) : Char := Char.ofNat (48 + n)

/-- Decimal digits of `n`, most significant first; structural on a fuel
argument so that it evaluates by kernel reduction. -/
def natDigitsAux : Nat → Nat → List Char
  | 0, _ => []
  | fuel + 1, n =>
    if n < 10 then [digitChar n]
    else natDigitsAux fuel (n / 10) ++ [digitChar (n % 10)]

/-- Decimal rendering of a natural number, as Python `str(n)`. -/
def natRepr (n : Nat) : String := ⟨natDigitsAux (n + 1) n⟩

/-- Numeric value of a digit list, used to invert `natDigitsAux`. -/
def digitsVal (cs : List Char) : Nat :=
  cs.foldl (fun a c => 10 * a + (c.toNat - 48)) 0

/-! ### `pathlib` stem/suffix and `make_unique` -/

/-- Index of the last `'.'` in a string (`str.rfind('.')` when present). -/
def rfindDot (s : String) : Option Nat :=
  match s.data.reverse.findIdx? (fun c => decide (c = '.')) with
  | some r => some (s.data.length - 1 - r)
  | none => none

/-- `pathlib.PurePath.suffix`: the part from the final dot on, but only when
that dot is neither the first nor the last character of the name. -/
def pySuffix (s : String) : String :=
  match rfindDot s with
  | some i => if 0 < i ∧ i + 1 < s.data.length then ⟨s.data.drop i⟩ else ""
  | none => ""

/-- `pathlib.PurePath.stem`: the name up to (excluding) the suffix. -/
def pyStem (s : String) : String :=
  match rfindDot s with
  | some i => if 0 < i ∧ i + 1 < s.data.length then ⟨s.data.take i⟩ else s
  | none => s

/-- The candidate name `f"{stem}({counter}){suffix}"`. -/
def candName (stem sfx : String) (k : Nat) : String :=
  stem ++ "(" ++ natRepr k ++ ")" ++ sfx

/-- The `while (destination_path / f"{stem}({counter}){suffix}").exists()`
loop of `make_unique`; `dest` is the list of names existing at the
destination, the fuel is chosen large enough to always suffice. -/
def findCounter (dest : List String) (stem sfx : String) : Nat → Nat → Nat
  | 0, k => k
  | fuel + 1, k =>
    if candName stem sfx k ∈ dest then findCounter dest stem sfx fuel (k + 1) else k

/-- `make_unique(destination, name)`: return `name` if no entry named `name`
exists at the destination, else append the least free numerical counter. -/
def make_unique (dest : List String) (name : String) : String :=
  if name ∈ dest then
    candName (pyStem name) (pySuffix name)
      (findCounter dest (pyStem name) (pySuffix name) (dest.length + 1) 1)
  else name

/-- Modelled from the spec: the spec describes the split as "stem and
final-dot extension", unconditionally taking the part from the final dot as
the extension.  Stem under that rule. -/
def specFinalDotStem (s : String) : String :=
  match rfindDot s with
  | some i => ⟨s.data.take i⟩
  | none => s

/-- Modelled from the spec: extension under the unconditional final-dot
split rule. -/
def specFinalDotSuffix (s : String) : String :=
  match rfindDot s with
  | some i => ⟨s.data.drop i⟩
  | none => ""

/-- Modelled from the spec: `make_unique` as the spec words it, with the
unconditional final-dot split (differs from the code only in the split). -/
def spec_make_unique (dest : List String) (name : String) : String :=
  if name ∈ dest then
    candName (specFinalDotStem name) (specFinalDotSuffix name)
      (findCounter dest (specFinalDotStem name) (specFinalDotSuffix name)
        (dest.length + 1) 1)
  else name

/-! ### Configuration: the extension lists and destinations of the script -/

def three_d_extensions : List String := [".3mf", ".stl"]

def docs_extensions : List String :=
  [".doc", ".docx", ".json", ".log", ".odt", ".pdf", ".txt"]

def ebooks_extensions : List String := [".epub", ".mobi"]

def excel_extensions : List String := [".csv", ".xls", ".xlsm", ".xlsx"]

def images_extensions : List String :=
  [".jpg", ".jpeg", ".jpe", ".jif", ".jfif", ".jfi", ".png", ".gif", ".webp",
   ".tiff", ".tif", ".psd", ".raw", ".arw", ".cr2", ".nrw", ".k25", ".bmp",
   ".dib", ".heif", ".heic", ".ind", ".indd", ".indt", ".jp2", ".j2k", ".jpf",
   ".jpx", ".jpm", ".mj2", ".svg", ".svgz", ".ai", ".eps", ".ico"]

def powerbi_extensions : List String := [".pbids", ".pbit", ".pbix", ".potx", ".rdl"]

def powerpoint_extensions : List String := [".ppt", ".pptx"]

def program_extensions : List String := [".AppImage", ".apk", ".exe", ".msi"]

def python_extensions : List String := [".ipynb", ".py"]

def sql_extensions : List String := [".sql"]

def videos_extensions : List String :=
  [".webm", ".mpg", ".mp2", ".mpeg", ".mpe", ".mpv", ".ogg", ".mp4", ".mp4v",
   ".m4v", ".avi", ".wmv", ".mov", ".qt", ".flv", ".swf", ".avchd"]

def web_extensions : List String := [".htm", ".html"]

def zips_extensions : List String :=
  [".7z", ".deb", ".gz", ".rar", ".tar", ".tar.xy", ".tar.xz", ".tgz", ".zip"]

def dest_dir_three_d : String := "Documents/3dPrints"

def dest_dir_docs : String := "Documents/Docs"

def dest_dir_ebooks : String := "Documents/eBooks"

def dest_dir_excel : String := "Documents/Excel"

def dest_dir_images : String := "Pictures"

def dest_dir_powerbi : String := "Documents/PowerBI"

def dest_dir_powerpoint : String := "Documents/Powerpoint"

def dest_dir_programs : String := "Documents/Programs"

def dest_dir_python : String := "Documents/Python"

def dest_dir_sql : String := "Documents/SQL"

def dest_dir_videos : String := "Videos"

def dest_dir_web : String := "Documents/Web"

def dest_dir_zips : String := "Documents/Zip"

/-- The `extension_mappings` dictionary of `check_files_in_dir`, in its
insertion order (Python dictionaries iterate in insertion order). -/
def extension_mappings : List (List String × String) :=
  [(three_d_extensions, dest_dir_three_d),
   (docs_extensions, dest_dir_docs),
   (ebooks_extensions, dest_dir_ebooks),
   (excel_extensions, dest_dir_excel),
   (images_extensions, dest_dir_images),
   (powerbi_extensions, dest_dir_powerbi),
   (powerpoint_extensions, dest_dir_powerpoint),
   (program_extensions, dest_dir_programs),
   (python_extensions, dest_dir_python),
   (sql_extensions, dest_dir_sql),
   (videos_extensions, dest_dir_videos),
   (web_extensions, dest_dir_web),
   (zips_extensions, dest_dir_zips)]

/-! ### Data model of the filesystem as seen by one scan pass -/

/-- Kind of a directory entry at a destination directory. -/
inductive DKind where
  | file
  | dir
  | other
deriving DecidableEq

/-- One entry of the source directory at listing time.  `mtime`/`ctime` are
the results of `os.path.getmtime` / `os.path.getctime` in integer seconds,
`none` meaning the call raises; `moveFails` models `shutil.move` raising
(permissions, cross-device link); `content` rides along to state frame
properties. -/
structure Entry where
  name : String
  isFile : Bool
  mtime : Option Int
  ctime : Option Int
  moveFails : Bool
  content : String
deriving DecidableEq

/-- The observable outcome records of one pass: the engine only logs
successful moves (`logging.info(f"Moved: ...")`). -/
inductive Event where
  | moved (srcName destDir destName : String)
deriving DecidableEq

/-- The Python exceptions that can escape the per-entry body. -/
inductive MoveErr where
  | statFailed
  | moveFailed
deriving DecidableEq

/-- State threaded through one scan pass: the entries still present in the
source directory, the destination directories with their contents, the
directories created by `os.makedirs` during this pass, and the events
logged so far. -/
structure ScanState where
  source : List Entry
  dests : List (String × List (String × DKind))
  made : List String
  events : List Event
deriving DecidableEq

/-- Contents of destination directory `d` (empty when it does not exist). -/
def destContents (st : ScanState) (d : String) : List (String × DKind) :=
  match st.dests.find? (fun p => decide (p.1 = d)) with
  | some p => p.2
  | none => []

/-- `Path.exists()` at a destination: an entry of any kind with this name. -/
def existsIn (contents : List (String × DKind)) (n : String) : Bool :=
  contents.any (fun p => decide (p.1 = n))

/-- `os.path.isfile` at a destination: a regular file with this name. -/
def isfileIn (contents : List (String × DKind)) (n : String) : Bool :=
  contents.any (fun p => decide (p.1 = n) && decide (p.2 = DKind.file))

/-- The destination filename chosen by `move_file`: `make_unique` is invoked
exactly when `destination/name` exists as a regular file. -/
def move_file_destname (contents : List (String × DKind)) (name : String) : String :=
  if isfileIn contents name then make_unique (contents.map Prod.fst) name else name

/-- `os.makedirs(destination_folder, exist_ok=True)`. -/
def makedirs (st : ScanState) (d : String) : ScanState :=
  if st.dests.any (fun p => decide (p.1 = d)) then st
  else { st with dests := st.dests ++ [(d, [])], made := st.made ++ [d] }

/-- Replace the contents of destination `d`. -/
def setDest (ds : List (String × List (String × DKind))) (d : String)
    (c : List (String × DKind)) : List (String × List (String × DKind)) :=
  ds.map (fun p => if p.1 = d then (d, c) else p)

/-- Whether the entry's path still exists in the source directory. -/
def presentIn (st : ScanState) (e : Entry) : Bool :=
  st.source.any (fun x => decide (x.name = e.name))

/-! ### The scan pass -/

/-- `shutil.move(source, dest_name)` together with the preceding
`dest_name` computation of `move_file` and the `logging.info` on success.
On failure the exception propagates with the state unchanged. -/
def moveFile (st : ScanState) (e : Entry) (d : String) :
    Except (MoveErr × ScanState) ScanState :=
  let contents := destContents st d
  let nm := move_file_destname contents e.name
  if e.moveFails then Except.error (MoveErr.moveFailed, st)
  else Except.ok
    { st with
      source := st.source.filter (fun x => decide (x.name ≠ e.name))
      dests := setDest st.dests d (contents ++ [(nm, DKind.file)])
      events := st.events ++ [Event.moved e.name d nm] }

/-- The timestamp logic of the per-match body: `os.path.getmtime` inside
`try`, with a bare `except` retrying `os.path.getctime`; a failure of the
retry propagates.  Either call raises when the file no longer exists in the
source directory. -/
def getRefTime (st : ScanState) (e : Entry) : Except (MoveErr × ScanState) Int :=
  match (if presentIn st e then e.mtime else none) with
  | some t => Except.ok t
  | none =>
    match (if presentIn st e then e.ctime else none) with
    | some t => Except.ok t
    | none => Except.error (MoveErr.statFailed, st)

/-- The body run when `name.endswith(extension) or
name.endswith(extension.upper())` holds: read the reference timestamp, and
when `difference.days > days_threshold` create the destination directory
and move the file. -/
def handleMatch (now thr : Int) (e : Entry) (d : String) (st : ScanState) :
    Except (MoveErr × ScanState) ScanState :=
  match getRefTime st e with
  | Except.error err => Except.error err
  | Except.ok ts =>
    if (now - ts).fdiv 86400 > thr then moveFile (makedirs st d) e d
    else Except.ok st

/-- The `(extension, destination)` pairs in the order the two nested loops
of `check_files_in_dir` visit them. -/
def entryPairs (m : List (List String × String)) : List (String × String) :=
  m.flatMap (fun p => p.1.map (fun ext => (ext, p.2)))

/-- The pairs whose extension matches `name`, in visit order. -/
def matchingPairs (m : List (List String × String)) (name : String) :
    List (String × String) :=
  (entryPairs m).filter (fun p => suffMatch name p.1)

/-- The two nested `for` loops over `extension_mappings`, with Python
exception propagation. -/
def foldPairs (now thr : Int) (e : Entry) :
    List (String × String) → ScanState → Except (MoveErr × ScanState) ScanState
  | [], st => Except.ok st
  | p :: ps, st =>
    if suffMatch e.name p.1 then
      match handleMatch now thr e p.2 st with
      | Except.ok st' => foldPairs now thr e ps st'
      | Except.error err => Except.error err
    else foldPairs now thr e ps st

/-- The body of `for files in os.scandir(base_folder)`: non-regular entries
are skipped silently, regular files go through the extension loops. -/
def processEntry (now thr : Int) (m : List (List String × String))
    (st : ScanState) (e : Entry) : Except (MoveErr × ScanState) ScanState :=
  if e.isFile then foldPairs now thr e (entryPairs m) st else Except.ok st

/-- The scan loop over the `os.scandir` snapshot; an exception escaping one
entry's body aborts the loop. -/
def scanLoop (now thr : Int) (m : List (List String × String)) :
    List Entry → ScanState → Except (MoveErr × ScanState) ScanState
  | [], st => Except.ok st
  | e :: es, st =>
    match processEntry now thr m st e with
    | Except.ok st' => scanLoop now thr m es st'
    | Except.error err => Except.error err

/-- `check_files_in_dir(base_folder, days_threshold)` generalized over the
mapping list; `st.source` is the `os.scandir` listing. -/
def check_files_in_dir_gen (now thr : Int) (m : List (List String × String))
    (st : ScanState) : Except (MoveErr × ScanState) ScanState :=
  scanLoop now thr m st.source st

/-- `check_files_in_dir` with the script's literal `extension_mappings`. -/
def check_files_in_dir (now thr : Int) (st : ScanState) :
    Except (MoveErr × ScanState) ScanState :=
  check_files_in_dir_gen now thr extension_mappings st

/-- The filesystem state after the pass, whether or not it crashed
(mutations before the crash persist). -/
def finalState : Except (MoveErr × ScanState) ScanState → ScanState
  | Except.ok s => s
  | Except.error (_, s) => s

/-! ### Helper lemmas about the scan -/

/-! ### Lemmas about decimal rendering and collision-safe naming -/

theorem digitChar_toNat {d : Nat} (h : d < 10) : (digitChar d).toNat = 48 + d := by
  interval_cases d <;> decide

theorem digitsVal_append (l : List Char) (c : Char) :
    digitsVal (l ++ [c]) = 10 * digitsVal l + (c.toNat - 48) := by
  simp [digitsVal, List.foldl_append]

theorem natDigitsAux_val : ∀ fuel n, n < fuel → digitsVal (natDigitsAux fuel n) = n := by
  intro fuel
  induction fuel with
  | zero => intro n h; omega
  | succ f ih =>
    intro n h
    by_cases h10 : n < 10
    · simp only [natDigitsAux, if_pos h10]
      simp [digitsVal, digitChar_toNat h10]
    · simp only [natDigitsAux, if_neg h10]
      rw [digitsVal_append, ih (n / 10) (by omega), digitChar_toNat (Nat.mod_lt _ (by omega))]
      omega

theorem natRepr_injective : Function.Injective natRepr := by
  intro a b h
  have hd : natDigitsAux (a + 1) a = natDigitsAux (b + 1) b :=
    congrArg String.data h
  have ha := natDigitsAux_val (a + 1) a (Nat.lt_succ_self a)
  have hb := natDigitsAux_val (b + 1) b (Nat.lt_succ_self b)
  rw [← ha, ← hb, hd]

theorem strData_append (a b : String) : (a ++ b).data = a.data ++ b.data := rfl

theorem candName_injective (stem sfx : String) :
    Function.Injective (candName stem sfx) := by
  intro k1 k2 h
  apply natRepr_injective
  apply String.ext
  have h' : stem.data ++ ('(' :: ((natRepr k1).data ++ (')' :: sfx.data))) =
      stem.data ++ ('(' :: ((natRepr k2).data ++ (')' :: sfx.data))) := by
    have := congrArg String.data h
    simpa [candName, strData_append] using this
  have h2 := List.append_cancel_left h'
  have h3 : (natRepr k1).data ++ (')' :: sfx.data) =
      (natRepr k2).data ++ (')' :: sfx.data) := by
    exact List.cons_injective h2
  exact List.append_cancel_right h3

/-- Among any `dest.length + 1` consecutive candidate names, one is free. -/
theorem candName_free_exists (dest : List String) (stem sfx : String) (k : Nat) :
    ∃ i, i < dest.length + 1 ∧ candName stem sfx (k + i) ∉ dest := by
  by_contra hall
  push_neg at hall
  have hmem : ∀ i < dest.length + 1, candName stem sfx (k + i) ∈ dest := hall
  set L : List String :=
    (List.range (dest.length + 1)).map (fun i => candName stem sfx (k + i)) with hL
  have hnodup : L.Nodup := by
    refine List.Nodup.map ?_ (List.nodup_range _)
    intro i j hij
    have := candName_injective stem sfx hij
    omega
  have hsub : L.toFinset ⊆ dest.toFinset := by
    intro x hx
    rw [List.mem_toFinset] at hx ⊢
    rw [hL, List.mem_map] at hx
    obtain ⟨i, hi, rfl⟩ := hx
    exact hmem i (List.mem_range.mp hi)
  have hcard : L.toFinset.card = dest.length + 1 := by
    rw [List.toFinset_card_of_nodup hnodup, hL, List.length_map, List.length_range]
  have := Finset.card_le_card hsub
  have := dest.toFinset_card_le
  omega

/-- The counter loop returns the least free counter at or above its start. -/
theorem findCounter_spec (dest : List String) (stem sfx : String) :
    ∀ fuel k, (∃ i, i < fuel ∧ candName stem sfx (k + i) ∉ dest) →
      candName stem sfx (findCounter dest stem sfx fuel k) ∉ dest ∧
      k ≤ findCounter dest stem sfx fuel k ∧
      ∀ j, k ≤ j → j < findCounter dest stem sfx fuel k →
        candName stem sfx j ∈ dest := by
  intro fuel
  induction fuel with
  | zero => intro k h; obtain ⟨i, hi, _⟩ := h; omega
  | succ f ih =>
    intro k h
    by_cases hk : candName stem sfx k ∈ dest
    · obtain ⟨i, hi, hfree⟩ := h
      have hi0 : i ≠ 0 := by rintro rfl; simp at hfree; exact hfree hk
      obtain ⟨i', rfl⟩ : ∃ i', i = i' + 1 := ⟨i - 1, by omega⟩
      have hrec := ih (k + 1) ⟨i', by omega, by
        have : k + 1 + i' = k + (i' + 1) := by omega
        rw [this]; exact hfree⟩
      simp only [findCounter, if_pos hk]
      refine ⟨hrec.1, by omega, ?_⟩
      intro j hj1 hj2
      rcases Nat.eq_or_lt_of_le hj1 with rfl | hlt
      · exact hk
      · exact hrec.2.2 j hlt hj2
    · simp only [findCounter, if_neg hk]
      exact ⟨hk, le_refl k, fun j h1 h2 => absurd (lt_of_le_of_lt h1 h2) (lt_irrefl k)⟩

/-- Headline property of `make_unique`: its result never exists at the
destination, and when the input name collides the result carries the least
free counter over the `pathlib` stem/suffix split. -/
theorem make_unique_least (dest : List String) (name : String) (h : name ∈ dest) :
    ∃ k, 1 ≤ k ∧
      make_unique dest name = candName (pyStem name) (pySuffix name) k ∧
      candName (pyStem name) (pySuffix name) k ∉ dest ∧
      ∀ j, 1 ≤ j → j < k → candName (pyStem name) (pySuffix name) j ∈ dest := by
  obtain ⟨i, hi, hfree⟩ := candName_free_exists dest (pyStem name) (pySuffix name) 1
  have hspec := findCounter_spec dest (pyStem name) (pySuffix name)
    (dest.length + 1) 1 ⟨i, hi, hfree⟩
  refine ⟨findCounter dest (pyStem name) (pySuffix name) (dest.length + 1) 1,
    hspec.2.1, ?_, hspec.1, hspec.2.2⟩
  simp [make_unique, if_pos h]

theorem make_unique_not_mem (dest : List String) (name : String) :
    make_unique dest name ∉ dest := by
  by_cases h : name ∈ dest
  · obtain ⟨k, _, heq, hfree, _⟩ := make_unique_least dest name h
    rw [heq]; exact hfree
  · simpa [make_unique, if_neg h] using h

theorem getRefTime_mtime (st : ScanState) (e : Entry) (t : Int)
    (hp : presentIn st e = true) (hm : e.mtime = some t) :
    getRefTime st e = Except.ok t := by
  simp [getRefTime, hp, hm]

theorem getRefTime_fallback (st : ScanState) (e : Entry) (c : Int)
    (hp : presentIn st e = true) (hm : e.mtime = none) (hc : e.ctime = some c) :
    getRefTime st e = Except.ok c := by
  simp [getRefTime, hp, hm, hc]

theorem getRefTime_bothNone (st : ScanState) (e : Entry)
    (hm : e.mtime = none) (hc : e.ctime = none) :
    getRefTime st e = Except.error (MoveErr.statFailed, st) := by
  by_cases hp : presentIn st e <;> simp [getRefTime, hp, hm, hc]

theorem getRefTime_absent (st : ScanState) (e : Entry)
    (hp : presentIn st e = false) :
    getRefTime st e = Except.error (MoveErr.statFailed, st) := by
  simp [getRefTime, hp]

theorem foldPairs_nomatch (now thr : Int) (e : Entry) :
    ∀ (l : List (String × String)) (st : ScanState),
      (∀ p ∈ l, suffMatch e.name p.1 = false) →
      foldPairs now thr e l st = Except.ok st := by
  intro l
  induction l with
  | nil => intro st _; rfl
  | cons p ps ih =>
    intro st h
    have hp : suffMatch e.name p.1 = false := h p (List.mem_cons_self p ps)
    simp only [foldPairs, hp, Bool.false_eq_true, if_false]
    exact ih st (fun q hq => h q (List.mem_cons_of_mem p hq))

theorem foldPairs_first (now thr : Int) (e : Entry) :
    ∀ (l1 : List (String × String)) (p : String × String)
      (l2 : List (String × String)) (st : ScanState),
      (∀ q ∈ l1, suffMatch e.name q.1 = false) →
      suffMatch e.name p.1 = true →
      foldPairs now thr e (l1 ++ p :: l2) st =
        match handleMatch now thr e p.2 st with
        | Except.ok st' => foldPairs now thr e l2 st'
        | Except.error err => Except.error err := by
  intro l1
  induction l1 with
  | nil =>
    intro p l2 st _ hp
    simp only [List.nil_append, foldPairs, hp, if_true]
  | cons q qs ih =>
    intro p l2 st h hp
    have hq : suffMatch e.name q.1 = false := h q (List.mem_cons_self q qs)
    simp only [List.cons_append, foldPairs, hq, Bool.false_eq_true, if_false]
    exact ih p l2 st (fun r hr => h r (List.mem_cons_of_mem q hr)) hp

theorem filter_eq_cons_split {α : Type} (q : α → Bool) :
    ∀ (l : List α) (a : α) (rest : List α), l.filter q = a :: rest →
      ∃ l1 l2, l = l1 ++ a :: l2 ∧ (∀ x ∈ l1, q x = false) ∧ q a = true ∧
        l2.filter q = rest := by
  intro l
  induction l with
  | nil => intro a rest h; simp at h
  | cons b bs ih =>
    intro a rest h
    by_cases hb : q b
    · rw [List.filter_cons_of_pos hb] at h
      obtain ⟨rfl, rfl⟩ : b = a ∧ bs.filter q = rest :=
        ⟨(List.cons.injEq _ _ _ _ ▸ h).1, (List.cons.injEq _ _ _ _ ▸ h).2⟩
      exact ⟨[], bs, rfl, by simp, hb, rfl⟩
    · rw [List.filter_cons_of_neg hb] at h
      obtain ⟨l1, l2, rfl, h1, h2, h3⟩ := ih a rest h
      refine ⟨b :: l1, l2, rfl, ?_, h2, h3⟩
      intro x hx
      rcases List.mem_cons.mp hx with rfl | hx'
      · exact Bool.not_eq_true _ ▸ (by simpa using hb)
      · exact h1 x hx'

theorem processEntry_of_singleton_match (now thr : Int)
    (m : List (List String × String)) (st : ScanState) (e : Entry)
    (x d : String) (hf : e.isFile = true)
    (hone : matchingPairs m e.name = [(x, d)]) :
    processEntry now thr m st e = handleMatch now thr e d st := by
  rw [matchingPairs] at hone
  obtain ⟨l1, l2, hdec, hl1, hx, hl2⟩ :=
    filter_eq_cons_split (fun p => suffMatch e.name p.1) (entryPairs m) (x, d) [] hone
  have hl2' : ∀ p ∈ l2, suffMatch e.name p.1 = false := by
    intro p hp
    by_contra hcon
    have : p ∈ l2.filter (fun p => suffMatch e.name p.1) :=
      List.mem_filter.mpr ⟨hp, by simpa using hcon⟩
    rw [hl2] at this
    simp at this
  rw [processEntry, if_pos hf, hdec, foldPairs_first now thr e l1 (x, d) l2 st hl1 hx]
  cases hhm : handleMatch now thr e d st with
  | ok st' => exact foldPairs_nomatch now thr e l2 st' hl2'
  | error err => rfl

theorem processEntry_of_no_match (now thr : Int)
    (m : List (List String × String)) (st : ScanState) (e : Entry)
    (hf : e.isFile = true) (hnone : matchingPairs m e.name = []) :
    processEntry now thr m st e = Except.ok st := by
  rw [processEntry, if_pos hf]
  refine foldPairs_nomatch now thr e (entryPairs m) st ?_
  intro p hp
  by_contra hcon
  have : p ∈ matchingPairs m e.name :=
    List.mem_filter.mpr ⟨hp, by simpa using hcon⟩
  rw [hnone] at this
  simp at this

theorem processEntry_of_first_match (now thr : Int)
    (m : List (List String × String)) (st : ScanState) (e : Entry)
    (x d : String) (rest : List (String × String)) (hf : e.isFile = true)
    (hcons : matchingPairs m e.name = (x, d) :: rest) :
    ∃ l2, processEntry now thr m st e =
      match handleMatch now thr e d st with
      | Except.ok st' => foldPairs now thr e l2 st'
      | Except.error err => Except.error err := by
  rw [matchingPairs] at hcons
  obtain ⟨l1, l2, hdec, hl1, hx, _⟩ :=
    filter_eq_cons_split (fun p => suffMatch e.name p.1) (entryPairs m) (x, d) rest hcons
  refine ⟨l2, ?_⟩
  rw [processEntry, if_pos hf, hdec]
  exact foldPairs_first now thr e l1 (x, d) l2 st hl1 hx

theorem makedirs_source (st : ScanState) (d : String) :
    (makedirs st d).source = st.source := by
  by_cases h : st.dests.any (fun p => decide (p.1 = d)) <;> simp [makedirs, h]

theorem makedirs_events (st : ScanState) (d : String) :
    (makedirs st d).events = st.events := by
  by_cases h : st.dests.any (fun p => decide (p.1 = d)) <;> simp [makedirs, h]

theorem foldPairs_absent (now thr : Int) (e : Entry) :
    ∀ (l : List (String × String)) (st : ScanState), presentIn st e = false →
      foldPairs now thr e l st = Except.ok st ∨
      foldPairs now thr e l st = Except.error (MoveErr.statFailed, st) := by
  intro l
  induction l with
  | nil => intro st _; exact Or.inl rfl
  | cons p ps ih =>
    intro st hp
    by_cases hm : suffMatch e.name p.1
    · simp only [foldPairs, hm, if_true]
      rw [handleMatch, getRefTime_absent st e hp]
      exact Or.inr rfl
    · simp only [foldPairs, hm, Bool.false_eq_true, if_false]
      exact ih st hp

/-! ### The claims -/

/-- C9: for every directory entry that is not a regular file, the scan
performs no classification, no timestamp read, no move, and emits no event
or log line for that entry: its per-entry body returns the state
unchanged. -/
theorem c9_nonregular_silently_skipped (now thr : Int)
    (m : List (List String × String)) (st : ScanState) (e : Entry)
    (h : e.isFile = false) :
    processEntry now thr m st e = Except.ok st := by
  simp [processEntry, h]

theorem c9_witness :
    processEntry 0 7 extension_mappings (⟨[], [], [], []⟩ : ScanState)
      ⟨"subdir", false, none, none, false, ""⟩ =
      Except.ok (⟨[], [], [], []⟩ : ScanState) :=
  c9_nonregular_silently_skipped 0 7 extension_mappings _ _ rfl

/-- C10: `move_file` only invokes `make_unique` when `destination/name`
exists as a regular file; when an entry with that name exists but is not a
regular file, the chosen move target is `destination/name` itself, so the
source file is not renamed to avoid that entry. -/
theorem c10_dir_collision_not_renamed (contents : List (String × DKind))
    (name : String) (_hex : existsIn contents name = true)
    (hnf : isfileIn contents name = false) :
    move_file_destname contents name = name := by
  simp [move_file_destname, hnf]

theorem c10_witness :
    existsIn [("sub", DKind.dir)] "sub" = true ∧
    isfileIn [("sub", DKind.dir)] "sub" = false ∧
    move_file_destname [("sub", DKind.dir)] "sub" = "sub" :=
  ⟨by decide, by decide,
   c10_dir_collision_not_renamed [("sub", DKind.dir)] "sub" (by decide) (by decide)⟩

/-- C7 (counterexample to the claim as stated): for the unmapped file
`weird.xyz` the scan performs no move and creates no directory, but it
emits no event at all — in particular not the claimed single
SkippedUnmapped event (the engine has no skip events). -/
theorem c7_counterexample :
    matchingPairs extension_mappings "weird.xyz" = [] ∧
    check_files_in_dir 8640000 7
      (⟨[⟨"weird.xyz", true, some 0, some 0, false, ""⟩], [], [], []⟩ : ScanState) =
      Except.ok
        (⟨[⟨"weird.xyz", true, some 0, some 0, false, ""⟩], [], [], []⟩ : ScanState) :=
  ⟨by decide, rfl⟩

/-- C7 (amended): for a regular file whose name matches no rule's suffix
list, the per-entry body returns the state unchanged: no move, no
destination directory created, and no event emitted at all. -/
theorem c7_unmapped_untouched (now thr : Int) (m : List (List String × String))
    (st : ScanState) (e : Entry) (hf : e.isFile = true)
    (hnone : matchingPairs m e.name = []) :
    processEntry now thr m st e = Except.ok st :=
  processEntry_of_no_match now thr m st e hf hnone

theorem c7_witness :
    processEntry 8640000 7 extension_mappings
      (⟨[⟨"weird.xyz", true, some 0, some 0, false, ""⟩], [], [], []⟩ : ScanState)
      ⟨"weird.xyz", true, some 0, some 0, false, ""⟩ =
      Except.ok
        (⟨[⟨"weird.xyz", true, some 0, some 0, false, ""⟩], [], [], []⟩ : ScanState) :=
  c7_unmapped_untouched 8640000 7 extension_mappings _ _ rfl (by decide)

/-- C8 (counterexample to the claim as stated): a `notes.txt` three days
old against a seven-day threshold is left untouched, but no SkippedTooYoung
event is emitted — the scan emits no event at all for it. -/
theorem c8_counterexample :
    ((8640000 : Int) - 8380800).fdiv 86400 ≤ 7 ∧
    check_files_in_dir 8640000 7
      (⟨[⟨"notes.txt", true, some 8380800, some 0, false, ""⟩], [], [], []⟩ : ScanState) =
      Except.ok
        (⟨[⟨"notes.txt", true, some 8380800, some 0, false, ""⟩], [], [], []⟩ : ScanState) :=
  ⟨by decide, rfl⟩

/-- C8 (amended): a regular file whose whole-day age is at or below the
threshold is left at the same path with the same content and no event is
emitted for it (the engine logs only moves; it has no SkippedTooYoung
event). -/
theorem c8_under_threshold_untouched (now thr ts : Int)
    (m : List (List String × String)) (st : ScanState) (e : Entry)
    (hf : e.isFile = true)
    (hts : e.mtime = some ts ∨ (e.mtime = none ∧ e.ctime = some ts))
    (hp : presentIn st e = true)
    (hage : (now - ts).fdiv 86400 ≤ thr) :
    processEntry now thr m st e = Except.ok st := by
  rw [processEntry, if_pos hf]
  have hrt : getRefTime st e = Except.ok ts := by
    rcases hts with h1 | ⟨h1, h2⟩
    · exact getRefTime_mtime st e ts hp h1
    · exact getRefTime_fallback st e ts hp h1 h2
  generalize entryPairs m = l
  induction l with
  | nil => rfl
  | cons p ps ih =>
    by_cases hm : suffMatch e.name p.1
    · simp only [foldPairs, hm, if_true, handleMatch, hrt, if_neg (not_lt.mpr hage)]
      exact ih
    · simp only [foldPairs, hm, Bool.false_eq_true, if_false]
      exact ih

theorem c8_witness :
    ((8640000 : Int) - 8380800).fdiv 86400 ≤ 7 ∧
    processEntry 8640000 7 extension_mappings
      (⟨[⟨"notes.txt", true, some 8380800, some 0, false, ""⟩], [], [], []⟩ : ScanState)
      ⟨"notes.txt", true, some 8380800, some 0, false, ""⟩ =
      Except.ok
        (⟨[⟨"notes.txt", true, some 8380800, some 0, false, ""⟩], [], [], []⟩ : ScanState) :=
  ⟨by decide,
   c8_under_threshold_untouched 8640000 7 8380800 extension_mappings _ _ rfl
     (Or.inl rfl) (by decide) (by decide)⟩

/-- C3 (counterexample to the claim as stated): `.Txt` is a letter-case
variant of the rule suffix `.txt` of the docs rule, yet `a.Txt` matches no
rule and a scan leaves it in place — classification is not independent of
the letter case of the extension. -/
theorem c3_counterexample :
    pyLower ".Txt" = ".txt" ∧ ".txt" ∈ docs_extensions ∧
    suffMatch "a.Txt" ".txt" = false ∧
    check_files_in_dir 8640000 7
      (⟨[⟨"a.Txt", true, some 0, some 0, false, ""⟩], [], [], []⟩ : ScanState) =
      Except.ok
        (⟨[⟨"a.Txt", true, some 0, some 0, false, ""⟩], [], [], []⟩ : ScanState) :=
  ⟨rfl, by decide, by decide, rfl⟩

/-- C3 (amended): the suffix comparison anchors at the end of the filename
(`pyEndswith` holds exactly when the rule suffix is a trailing segment),
and a rule suffix matches exactly the filenames ending in it as written or
in its full-uppercase variant — not arbitrary mixed-case variants. -/
theorem c3_case_handling (name ext : String) :
    (pyEndswith name ext = true ↔ ∃ pre, pre ++ ext.data = name.data) ∧
    suffMatch (name ++ ext) ext = true ∧
    suffMatch (name ++ pyUpper ext) ext = true ∧
    suffMatch name ext = (pyEndswith name ext || pyEndswith name (pyUpper ext)) := by
  refine ⟨?_, ?_, ?_, rfl⟩
  · rw [pyEndswith, List.isSuffixOf_iff_suffix]
    exact Iff.rfl
  · have h : pyEndswith (name ++ ext) ext = true := by
      rw [pyEndswith, List.isSuffixOf_iff_suffix, strData_append]
      exact List.suffix_append name.data ext.data
    simp [suffMatch, h]
  · have h : pyEndswith (name ++ pyUpper ext) (pyUpper ext) = true := by
      rw [pyEndswith, List.isSuffixOf_iff_suffix, strData_append]
      exact List.suffix_append name.data (pyUpper ext).data
    simp [suffMatch, h]

/-- C5 (counterexample to the claim as stated): for the hidden file
`.bashrc` the code splits via `pathlib` (no extension, stem `.bashrc`)
and returns `.bashrc(1)`, while the claim's unconditional final-dot split
would produce `(1).bashrc`. -/
theorem c5_counterexample :
    make_unique [".bashrc"] ".bashrc" = ".bashrc(1)" ∧
    spec_make_unique [".bashrc"] ".bashrc" = "(1).bashrc" ∧
    make_unique [".bashrc"] ".bashrc" ≠ spec_make_unique [".bashrc"] ".bashrc" :=
  ⟨rfl, rfl, by decide⟩

/-- C5 (amended): `make_unique` returns the name unchanged when no entry
with that name exists; its result never exists at the destination; and on a
collision it returns `stem(k)extension` for the least counter `k ≥ 1` whose
name is free, where stem/extension follow the `pathlib` split: the
extension is the final-dot suffix only when that dot is neither the first
nor the last character of the name (so `archive.tar.gz` splits into
`archive.tar` and `.gz`, but `.bashrc` has no extension). -/
theorem c5_collision_safe_naming (dest : List String) (name : String) :
    (name ∉ dest → make_unique dest name = name) ∧
    make_unique dest name ∉ dest ∧
    (name ∈ dest → ∃ k, 1 ≤ k ∧
      make_unique dest name = candName (pyStem name) (pySuffix name) k ∧
      candName (pyStem name) (pySuffix name) k ∉ dest ∧
      ∀ j, 1 ≤ j → j < k → candName (pyStem name) (pySuffix name) j ∈ dest) :=
  ⟨fun h => by simp [make_unique, if_neg h],
   make_unique_not_mem dest name,
   make_unique_least dest name⟩

theorem c5_witness :
    make_unique ["report.txt"] "report.txt" ∉ ["report.txt"] ∧
    make_unique ["report.txt"] "report.txt" = "report(1).txt" ∧
    make_unique ["report.txt", "report(1).txt"] "report.txt" = "report(2).txt" ∧
    make_unique ["report.txt"] "notes.txt" = "notes.txt" :=
  ⟨(c5_collision_safe_naming ["report.txt"] "report.txt").2.1,
   by decide, by decide,
   (c5_collision_safe_naming ["report.txt"] "notes.txt").1 (by decide)⟩

/-- C2 (counterexample to the claim as stated): for a matched file whose
modification and creation timestamps are both unavailable, the scan does
not emit an Error event and continue — the exception escapes the per-entry
body and the whole pass aborts with no event logged. -/
theorem c2_counterexample :
    check_files_in_dir 0 7
      (⟨[⟨"x.txt", true, none, none, false, ""⟩], [], [], []⟩ : ScanState) =
      Except.error (MoveErr.statFailed,
        (⟨[⟨"x.txt", true, none, none, false, ""⟩], [], [], []⟩ : ScanState)) := rfl

/-- C2 (amended): the organizer prefers the last-modified time and falls
back to the creation time when reading the modification time fails; but
when both are unavailable on a matched file, the exception propagates and
the pass aborts with the state unchanged — no Error event is emitted and
the scan does not continue. -/
theorem c2_timestamp_fallback :
    (∀ (st : ScanState) (e : Entry) (t : Int),
      presentIn st e = true → e.mtime = some t → getRefTime st e = Except.ok t) ∧
    (∀ (st : ScanState) (e : Entry) (c : Int),
      presentIn st e = true → e.mtime = none → e.ctime = some c →
      getRefTime st e = Except.ok c) ∧
    (∀ (now thr : Int) (m : List (List String × String)) (st : ScanState)
      (e : Entry) (p : String × String) (rest : List (String × String)),
      e.isFile = true → e.mtime = none → e.ctime = none →
      matchingPairs m e.name = p :: rest →
      processEntry now thr m st e = Except.error (MoveErr.statFailed, st)) := by
  refine ⟨getRefTime_mtime, getRefTime_fallback, ?_⟩
  intro now thr m st e p rest hf hm hc hcons
  obtain ⟨l2, hpe⟩ :=
    processEntry_of_first_match now thr m st e p.1 p.2 rest hf (by
      simpa using hcons)
  rw [hpe, handleMatch, getRefTime_bothNone st e hm hc]

theorem c2_witness :
    processEntry 0 7 extension_mappings
      (⟨[⟨"x.txt", true, none, none, false, ""⟩], [], [], []⟩ : ScanState)
      ⟨"x.txt", true, none, none, false, ""⟩ =
      Except.error (MoveErr.statFailed,
        (⟨[⟨"x.txt", true, none, none, false, ""⟩], [], [], []⟩ : ScanState)) :=
  c2_timestamp_fallback.2.2 0 7 extension_mappings _ _ (".txt", dest_dir_docs) []
    rfl rfl rfl (by decide)

/-- C1 (counterexample to the claim as stated): a failed move on the first
entry aborts the pass — the exception escapes the per-entry body, the
second (eligible) entry is never processed and no event is logged, whereas
the same second entry alone is moved. -/
theorem c1_counterexample :
    check_files_in_dir 864000 7
      (⟨[⟨"old.txt", true, some 0, some 0, true, "b"⟩,
         ⟨"keep.pdf", true, some 0, some 0, false, "g"⟩], [], [], []⟩ : ScanState) =
      Except.error (MoveErr.moveFailed,
        (⟨[⟨"old.txt", true, some 0, some 0, true, "b"⟩,
           ⟨"keep.pdf", true, some 0, some 0, false, "g"⟩],
          [(dest_dir_docs, [])], [dest_dir_docs], []⟩ : ScanState)) ∧
    check_files_in_dir 864000 7
      (⟨[⟨"keep.pdf", true, some 0, some 0, false, "g"⟩], [], [], []⟩ : ScanState) =
      Except.ok
        (⟨[], [(dest_dir_docs, [("keep.pdf", DKind.file)])], [dest_dir_docs],
          [Event.moved "keep.pdf" dest_dir_docs "keep.pdf"]⟩ : ScanState) :=
  ⟨rfl, rfl⟩

/-- C1 (amended): only the modification-timestamp read is isolated per
entry (falling back to the creation time); any exception escaping an
entry's body — in particular a failed move on an eligible matched file —
aborts the scan loop, so the remaining entries are not processed. -/
theorem c1_per_entry_failure_aborts :
    (∀ (st : ScanState) (e : Entry) (c : Int),
      presentIn st e = true → e.mtime = none → e.ctime = some c →
      getRefTime st e = Except.ok c) ∧
    (∀ (now thr : Int) (m : List (List String × String)) (st : ScanState)
      (bad : Entry) (post : List Entry) (err : MoveErr × ScanState),
      processEntry now thr m st bad = Except.error err →
      scanLoop now thr m (bad :: post) st = Except.error err) ∧
    (∀ (now thr ts : Int) (m : List (List String × String)) (st : ScanState)
      (e : Entry) (x d : String),
      e.isFile = true → matchingPairs m e.name = [(x, d)] → e.mtime = some ts →
      presentIn st e = true → e.moveFails = true →
      (now - ts).fdiv 86400 > thr →
      processEntry now thr m st e =
        Except.error (MoveErr.moveFailed, makedirs st d)) := by
  refine ⟨getRefTime_fallback, ?_, ?_⟩
  · intro now thr m st bad post err h
    simp [scanLoop, h]
  · intro now thr ts m st e x d hf hone hm hp hmv hage
    rw [processEntry_of_singleton_match now thr m st e x d hf hone,
      handleMatch, getRefTime_mtime st e ts hp hm]
    simp [moveFile, hmv, if_pos hage]

theorem c1_witness :
    processEntry 864000 7 [([".txt"], "D")]
      (⟨[⟨"old.txt", true, some 0, some 0, true, "b"⟩], [], [], []⟩ : ScanState)
      ⟨"old.txt", true, some 0, some 0, true, "b"⟩ =
      Except.error (MoveErr.moveFailed,
        makedirs (⟨[⟨"old.txt", true, some 0, some 0, true, "b"⟩], [], [], []⟩ : ScanState) "D") :=
  c1_per_entry_failure_aborts.2.2 864000 7 0 [([".txt"], "D")] _ _ ".txt" "D"
    rfl (by decide) rfl (by decide) rfl (by decide)

/-- C4: a regular candidate file with a (unique) matched category — every
rule of the script has a configured destination — is moved if and only if
`floor((now - reference timestamp) / 86400)` is strictly greater than the
threshold; at or below the threshold the scan returns the state unchanged,
leaving the file in place. -/
theorem c4_strict_age_threshold (now thr ts : Int)
    (m : List (List String × String)) (x d : String) (e : Entry)
    (ds : List (String × List (String × DKind)))
    (hf : e.isFile = true) (hone : matchingPairs m e.name = [(x, d)])
    (hm : e.mtime = some ts) (hmv : e.moveFails = false) :
    ((now - ts).fdiv 86400 > thr →
      ∃ st' nm, check_files_in_dir_gen now thr m ⟨[e], ds, [], []⟩ = Except.ok st' ∧
        st'.events = [Event.moved e.name d nm] ∧ st'.source = []) ∧
    ((now - ts).fdiv 86400 ≤ thr →
      check_files_in_dir_gen now thr m ⟨[e], ds, [], []⟩ =
        Except.ok (⟨[e], ds, [], []⟩ : ScanState)) := by
  have hp : presentIn (⟨[e], ds, [], []⟩ : ScanState) e = true := by
    simp [presentIn]
  have hpe : processEntry now thr m (⟨[e], ds, [], []⟩ : ScanState) e =
      handleMatch now thr e d (⟨[e], ds, [], []⟩ : ScanState) :=
    processEntry_of_singleton_match now thr m _ e x d hf hone
  constructor
  · intro hage
    have hhm : handleMatch now thr e d (⟨[e], ds, [], []⟩ : ScanState) =
        moveFile (makedirs (⟨[e], ds, [], []⟩ : ScanState) d) e d := by
      rw [handleMatch, getRefTime_mtime _ e ts hp hm]
      simp [if_pos hage]
    set stM := makedirs (⟨[e], ds, [], []⟩ : ScanState) d with hstM
    have hmove : moveFile stM e d = Except.ok
        { stM with
          source := stM.source.filter (fun y => decide (y.name ≠ e.name)),
          dests := setDest stM.dests d (destContents stM d ++
            [(move_file_destname (destContents stM d) e.name, DKind.file)]),
          events := stM.events ++
            [Event.moved e.name d (move_file_destname (destContents stM d) e.name)] } := by
      rw [moveFile]
      simp [hmv]
    refine ⟨{ stM with
        source := stM.source.filter (fun y => decide (y.name ≠ e.name)),
        dests := setDest stM.dests d (destContents stM d ++
          [(move_file_destname (destContents stM d) e.name, DKind.file)]),
        events := stM.events ++
          [Event.moved e.name d (move_file_destname (destContents stM d) e.name)] },
      move_file_destname (destContents stM d) e.name, ?_, ?_, ?_⟩
    · rw [check_files_in_dir_gen]
      show scanLoop now thr m [e] _ = _
      simp only [scanLoop, hpe, hhm, hmove]
    · show (stM.events ++ _ : List Event) = _
      rw [hstM, makedirs_events]
      rfl
    · show (stM.source.filter _ : List Entry) = _
      rw [hstM, makedirs_source]
      simp
  · intro hage
    have hhm : handleMatch now thr e d (⟨[e], ds, [], []⟩ : ScanState) =
        Except.ok (⟨[e], ds, [], []⟩ : ScanState) := by
      rw [handleMatch, getRefTime_mtime _ e ts hp hm]
      simp [if_neg (not_lt.mpr hage)]
    rw [check_files_in_dir_gen]
    show scanLoop now thr m [e] _ = _
    simp only [scanLoop, hpe, hhm]

theorem c4_witness :
    ((691200 : Int) - 0).fdiv 86400 > 7 ∧
    (∃ st' nm, check_files_in_dir_gen 691200 7 [([".txt"], "Docs")]
        ⟨[⟨"a.txt", true, some 0, none, false, "c"⟩], [], [], []⟩ = Except.ok st' ∧
      st'.events = [Event.moved "a.txt" "Docs" nm] ∧ st'.source = []) :=
  ⟨by decide,
   (c4_strict_age_threshold 691200 7 0 [([".txt"], "Docs")] ".txt" "Docs"
     ⟨"a.txt", true, some 0, none, false, "c"⟩ [] rfl (by decide) rfl rfl).1
     (by decide)⟩

/-- C6: when a filename's tail matches suffixes of more than one rule, the
file is moved to the destination of the rule whose suffix list comes first
in the deterministic visit order of `extension_mappings` (insertion order
of the mapping, flattened rule by rule), and that move is the only event
of the pass. -/
theorem c6_first_match_wins (now thr ts : Int) (m : List (List String × String))
    (x d : String) (l1 l2 : List (String × String)) (e : Entry)
    (ds : List (String × List (String × DKind)))
    (hf : e.isFile = true)
    (hdec : entryPairs m = l1 ++ (x, d) :: l2)
    (hl1 : ∀ q ∈ l1, suffMatch e.name q.1 = false)
    (hx : suffMatch e.name x = true)
    (hm : e.mtime = some ts) (hmv : e.moveFails = false)
    (hage : (now - ts).fdiv 86400 > thr) :
    ∃ nm, (finalState (check_files_in_dir_gen now thr m ⟨[e], ds, [], []⟩)).events =
      [Event.moved e.name d nm] := by
  have hp : presentIn (⟨[e], ds, [], []⟩ : ScanState) e = true := by
    simp [presentIn]
  have hhm : handleMatch now thr e d (⟨[e], ds, [], []⟩ : ScanState) =
      moveFile (makedirs (⟨[e], ds, [], []⟩ : ScanState) d) e d := by
    rw [handleMatch, getRefTime_mtime _ e ts hp hm]
    simp [if_pos hage]
  set stM := makedirs (⟨[e], ds, [], []⟩ : ScanState) d with hstM
  set stB : ScanState :=
    { stM with
      source := stM.source.filter (fun y => decide (y.name ≠ e.name)),
      dests := setDest stM.dests d (destContents stM d ++
        [(move_file_destname (destContents stM d) e.name, DKind.file)]),
      events := stM.events ++
        [Event.moved e.name d (move_file_destname (destContents stM d) e.name)] }
    with hstB
  have hmove : moveFile stM e d = Except.ok stB := by
    rw [moveFile]
    simp [hmv, hstB]
  have hsrc : stB.source = [] := by
    rw [hstB]
    show stM.source.filter _ = []
    rw [hstM, makedirs_source]
    simp
  have hev : stB.events = [Event.moved e.name d
      (move_file_destname (destContents stM d) e.name)] := by
    rw [hstB]
    show (stM.events ++ _ : List Event) = _
    rw [hstM, makedirs_events]
    rfl
  have habs : presentIn stB e = false := by
    rw [presentIn, hsrc]
    rfl
  have hpe : processEntry now thr m (⟨[e], ds, [], []⟩ : ScanState) e =
      foldPairs now thr e l2 stB := by
    rw [processEntry, if_pos hf, hdec,
      foldPairs_first now thr e l1 (x, d) l2 _ hl1 hx, hhm, hmove]
  refine ⟨move_file_destname (destContents stM d) e.name, ?_⟩
  rw [check_files_in_dir_gen]
  show (finalState (scanLoop now thr m [e] _)).events = _
  rcases foldPairs_absent now thr e l2 stB habs with hfold | hfold
  · simp only [scanLoop, hpe, hfold, finalState]
    exact hev
  · simp only [scanLoop, hpe, hfold, finalState]
    exact hev

theorem c6_witness :
    ∃ nm, (finalState (check_files_in_dir_gen 864000 7
        [([".gz"], "zips"), ([".tar.gz"], "tars")]
        ⟨[⟨"a.tar.gz", true, some 0, some 0, false, "c"⟩], [], [], []⟩)).events =
      [Event.moved "a.tar.gz" "zips" nm] :=
  c6_first_match_wins 864000 7 0 [([".gz"], "zips"), ([".tar.gz"], "tars")]
    ".gz" "zips" [] [(".tar.gz", "tars")]
    ⟨"a.tar.gz", true, some 0, some 0, false, "c"⟩ [] rfl (by decide)
    (by simp) (by decide) rfl rfl (by decide)

end Janitor
